import Mathlib

/-!
Shallow embedding of the inline PDF viewer component
(src/src/components/PdfInlineViewer.jsx) of the StudyHub repository.

JavaScript numbers are embedded as rationals, JavaScript strings that are
processed character by character (annotation text, hex colors) as lists of
characters, and the component's asynchronous effects (fetch, PDF parsing,
serialization, the persistence callback, render tasks, thumbnail renders)
as explicit outcome parameters or event traces.
-/

namespace StudyHub

/-- JS `const clamp = (value, min, max) => Math.min(Math.max(value, min), max)`. -/
def clamp (value lo hi : ℚ) : ℚ := min (max value lo) hi

/-- JS `Number(v) || d`: a numeric value that is falsy (0) falls back to `d`. -/
def jsOr (v d : ℚ) : ℚ := if v = 0 then d else v

/-- JS `err?.message || '保存 PDF 失败。'`: an empty message falls back to the default. -/
def jsOrMsg (m : String) : String := if m = "" then "保存 PDF 失败。" else m

/-- JS array indexing `xs[i]` with a possibly negative index: negative indices
and indices past the end yield `undefined` (here `none`). -/
def jsIndex {α : Type} (xs : List α) (i : Int) : Option α :=
  if 0 ≤ i then xs.get? i.toNat else none

/-- JS `String.prototype.trimStart` on a string embedded as a character list. -/
def jsTrimStart (s : List Char) : List Char := s.dropWhile Char.isWhitespace

/-- JS `String.prototype.trimEnd` on a string embedded as a character list. -/
def jsTrimEnd (s : List Char) : List Char :=
  (s.reverse.dropWhile Char.isWhitespace).reverse

/-- JS `String.prototype.trim` on a string embedded as a character list. -/
def jsTrim (s : List Char) : List Char := jsTrimEnd (jsTrimStart s)

/-- JS `str.split('\n')` on a string embedded as a character list; splitting
the empty string yields one empty piece, like in JS. -/
def splitNl : List Char → List (List Char)
  | [] => [[]]
  | c :: rest =>
    if c = '\n' then [] :: splitNl rest
    else
      match splitNl rest with
      | [] => [[c]]
      | l :: ls => (c :: l) :: ls

/-- JS `line || ' '` in the save pipeline: an empty line is drawn as a single space. -/
def lineOr (line : List Char) : List Char := if line = [] then [' '] else line

/-- One character class of the regex `[0-9a-fA-F]` in `toRgbColor`. -/
def isHexDigit (c : Char) : Bool :=
  ('0' ≤ c && c ≤ '9') || ('a' ≤ c && c ≤ 'f') || ('A' ≤ c && c ≤ 'F')

/-- The numeric value `parseInt` assigns to one hexadecimal digit. -/
def hexDigitVal (c : Char) : Nat :=
  if '0' ≤ c ∧ c ≤ '9' then c.toNat - '0'.toNat
  else if 'A' ≤ c ∧ c ≤ 'F' then c.toNat - 'A'.toNat + 10
  else c.toNat - 'a'.toNat + 10

/-- JS `.replace(/^#/, '')`: strip at most one leading `#`. -/
def stripHash : List Char → List Char
  | '#' :: rest => rest
  | l => l

/-- An `rgb(r, g, b)` color value from pdf-lib, components in `[0, 1]`. -/
structure Rgb where
  r : ℚ
  g : ℚ
  b : ℚ
deriving DecidableEq, Repr

/-- The test-and-parse core of `toRgbColor` applied to the trimmed, unhashed
raw string: the regex `/^[0-9a-fA-F]\x7b6\x7d$/` accepts exactly the
six-hex-digit lists, and each pair is parsed with `parseInt(..., 16) / 255`. -/
def toRgbCore (raw : List Char) : Rgb :=
  match raw, raw.all isHexDigit with
  | [c0, c1, c2, c3, c4, c5], true =>
    ⟨(16 * hexDigitVal c0 + hexDigitVal c1 : ℚ) / 255,
     (16 * hexDigitVal c2 + hexDigitVal c3 : ℚ) / 255,
     (16 * hexDigitVal c4 + hexDigitVal c5 : ℚ) / 255⟩
  | _, _ => ⟨78 / 100, 16 / 100, 16 / 100⟩

/-- JS `toRgbColor` (PdfInlineViewer.jsx lines 24-33): trim, strip an optional
leading `#`, require exactly six hex digits, else fall back to the default red
`rgb(0.78, 0.16, 0.16)`. `none` models a null/undefined argument (`hex || ''`). -/
def toRgbColor (hex : Option (List Char)) : Rgb :=
  toRgbCore (stripHash (jsTrim (hex.getD [])))

/-- A pending text annotation of the viewer (PdfInlineViewer.jsx lines 253-264):
1-based target page, normalized coordinates, raw text, hex color string, font size. -/
structure Annot where
  id : String
  page : Nat
  x : ℚ
  y : ℚ
  text : List Char
  color : List Char
  size : ℚ
deriving DecidableEq, Repr

/-- One `page.drawText` invocation produced by the save pipeline. -/
structure DrawOp where
  page : Nat
  x : ℚ
  y : ℚ
  size : ℚ
  color : Rgb
  text : List Char
deriving DecidableEq, Repr

/-- The per-line `forEach` of the save pipeline (PdfInlineViewer.jsx lines
315-327): line `i` is drawn at `baseY - i * lineHeight`, and a line whose
computed `y` is below 0 is skipped. -/
def stampLines (pg : Nat) (bx b0 ds : ℚ) (col : Rgb) : Nat → List (List Char) → List DrawOp
  | _, [] => []
  | i, line :: rest =>
    (if b0 - (i : ℚ) * (ds + 2) < 0 then []
     else [{ page := pg, x := bx, y := b0 - (i : ℚ) * (ds + 2), size := ds,
             color := col, text := lineOr line }]) ++
    stampLines pg bx b0 ds col (i + 1) rest

/-- The per-annotation body of `annotations.forEach` in `saveEditedPdf`
(PdfInlineViewer.jsx lines 304-328): resolve the target page by 1-based index
(`pages[annotation.page - 1]`, skipping when `undefined`), compute the absolute
base position from normalized coordinates with the y-axis inverted, and stamp
each text line. `pages` lists each page's `(width, height)`. -/
def stampAnnot (pages : List (ℚ × ℚ)) (a : Annot) : List DrawOp :=
  match jsIndex pages ((a.page : Int) - 1) with
  | none => []
  | some wh =>
    stampLines a.page (clamp a.x 0 1 * wh.1) (wh.2 - clamp a.y 0 1 * wh.2)
      (clamp (jsOr a.size 14) 8 48) (toRgbColor (some a.color)) 0 (splitNl a.text)

/-- Outcome of `fetch(src)` in the save pipeline: the promise rejects with an
error message, or resolves with a response whose `ok` flag is given. -/
inductive FetchOutcome where
  | reject (msg : String)
  | resolved (ok : Bool)
deriving DecidableEq, Repr

/-- Outcomes of the asynchronous steps of one `saveEditedPdf` invocation:
the byte fetch, `PDFDocument.load` (yielding the page sizes on success),
`pdfDocForEdit.save()`, and the externally supplied persistence callback. -/
structure SaveEnv where
  fetchOutcome : FetchOutcome
  parseOutcome : Except String (List (ℚ × ℚ))
  serializeOutcome : Except String Unit
  callbackOutcome : Except String Unit

/-- The slice of viewer state that `saveEditedPdf` reads and writes. -/
structure EditState where
  annotations : List Annot
  editMode : Bool
  editorError : String
deriving DecidableEq, Repr

/-- Result of one `saveEditedPdf` invocation: the updated state, whether the
network fetch started, whether the persistence callback was invoked, and the
`drawText` operations applied to the in-memory document. -/
structure SaveResult where
  state : EditState
  fetched : Bool
  callbackInvoked : Bool
  drawOps : List DrawOp

/-- The local validation message shown when saving with no pending annotations. -/
def noAnnotsMsg : String := "请先在页面上添加至少一个文本标注。"

/-- The message thrown when `fetch` resolves with a non-ok response. -/
def fetchNotOkMsg : String := "无法读取当前 PDF 文件。"

/-- JS `saveEditedPdf` (PdfInlineViewer.jsx lines 285-338). The guards, the
empty-list early return, the try block with its awaited steps, and the single
catch handler that stores `err?.message || '保存 PDF 失败。'` in `editorError`. -/
def saveEditedPdf (editable hasCallback : Bool) (env : SaveEnv) (st : EditState) : SaveResult :=
  if !(editable && hasCallback) then ⟨st, false, false, []⟩
  else if st.annotations.isEmpty then
    ⟨{ st with editorError := noAnnotsMsg }, false, false, []⟩
  else
    let st1 : EditState := { st with editorError := "" }
    match env.fetchOutcome with
    | .reject msg => ⟨{ st1 with editorError := jsOrMsg msg }, true, false, []⟩
    | .resolved ok =>
      if !ok then ⟨{ st1 with editorError := jsOrMsg fetchNotOkMsg }, true, false, []⟩
      else
        match env.parseOutcome with
        | .error msg => ⟨{ st1 with editorError := jsOrMsg msg }, true, false, []⟩
        | .ok pageSizes =>
          let ops := st.annotations.flatMap (stampAnnot pageSizes)
          match env.serializeOutcome with
          | .error msg => ⟨{ st1 with editorError := jsOrMsg msg }, true, false, ops⟩
          | .ok _ =>
            match env.callbackOutcome with
            | .error msg => ⟨{ st1 with editorError := jsOrMsg msg }, true, true, ops⟩
            | .ok _ => ⟨{ st1 with annotations := [], editMode := false }, true, true, ops⟩

/-- Helper: an `Except` value is a success. -/
def exceptOk {α : Type} : Except String α → Bool
  | .ok _ => true
  | .error _ => false

/-- Every awaited step of one save invocation succeeds. -/
def saveAllOk (env : SaveEnv) : Prop :=
  env.fetchOutcome = .resolved true ∧ exceptOk env.parseOutcome = true ∧
    exceptOk env.serializeOutcome = true ∧ exceptOk env.callbackOutcome = true

instance (env : SaveEnv) : Decidable (saveAllOk env) := by
  unfold saveAllOk; infer_instance

/-- The memoized `pageAnnotations` of the viewer (PdfInlineViewer.jsx lines
68-71): the in-memory list filtered to the currently displayed page; the
annotation layer (lines 533-553) renders exactly this list. -/
def pageAnnotations (annots : List Annot) (pageNum : Nat) : List Annot :=
  annots.filter (fun item => item.page == pageNum)

/-- The previous-page button handler (PdfInlineViewer.jsx line 364):
`setPageNum((prev) => Math.max(1, prev - 1))`. -/
def prevPageClick (pageNum : Nat) : Nat := max 1 (pageNum - 1)

/-- The next-page button handler (PdfInlineViewer.jsx line 375):
`setPageNum((prev) => Math.min(totalPages, prev + 1))`. -/
def nextPageClick (totalPages pageNum : Nat) : Nat := min totalPages (pageNum + 1)

/-- The page numbers offered by the overview thumbnail grid (PdfInlineViewer.jsx
line 484): `Array.from(\x7b length: totalPages \x7d, (_, idx) => idx + 1)`;
clicking entry `num` runs `setPageNum(num)`. -/
def thumbGridPages (totalPages : Nat) : List Nat := List.range' 1 totalPages

/-- Modelled from the spec: the underlying PDF library's page lookup
(`pdfDoc.getPage(pageNum)` in `renderPage`, PdfInlineViewer.jsx line 181) is an
external capability whose code is not in the repository; per the spec it rejects
a request for a page outside `[1, totalPages]` before any rendering begins. -/
def getPageResult (totalPages n : Nat) : Option Nat :=
  if 1 ≤ n ∧ n ≤ totalPages then some n else none

/-- Result of one `renderPage` attempt: whether `page.render` was invoked and,
if so, for which page. -/
structure RenderAttempt where
  rendererInvoked : Bool
  renderedPage : Option Nat
deriving DecidableEq, Repr

/-- The `renderPage` body (PdfInlineViewer.jsx lines 178-216) as far as page
resolution is concerned: `page.render` is reached only when `pdfDoc.getPage`
succeeds; a rejected lookup lands in the catch block before the renderer runs. -/
def attemptRender (totalPages n : Nat) : RenderAttempt :=
  match getPageResult totalPages n with
  | none => ⟨false, none⟩
  | some p => ⟨true, some p⟩

/-- The slice of viewer state that `handleLayerClick` reads and writes. -/
structure ClickState where
  annotations : List Annot
  editorError : String
deriving DecidableEq, Repr

/-- JS `handleLayerClick` (PdfInlineViewer.jsx lines 236-265): guards, the
`window.prompt` result (`none` models the user cancelling), the trailing-trim
and blank-text check, coordinate normalization against the layer's bounding
rectangle with clamping, and the single append to the pending list. -/
def handleLayerClick (editable editMode loadingDoc loadingPage saveLoading : Bool)
    (canvasW canvasH : ℚ) (promptResult : Option (List Char))
    (clientX clientY rectLeft rectTop rectW rectH : ℚ)
    (newId : String) (pageNum : Nat) (annotColor : List Char) (annotSize : ℚ)
    (st : ClickState) : ClickState :=
  if !(editable && editMode) || loadingDoc || loadingPage || saveLoading then st
  else if canvasW = 0 ∨ canvasH = 0 then st
  else
    match promptResult with
    | none => st
    | some textInput =>
      let text := jsTrimEnd textInput
      if jsTrim text = [] then st
      else
        let nx := clamp ((clientX - rectLeft) / rectW) 0 1
        let ny := clamp ((clientY - rectTop) / rectH) 0 1
        { annotations := st.annotations ++
            [{ id := newId, page := pageNum, x := nx, y := ny, text := text,
               color := annotColor, size := clamp (jsOr annotSize 14) 8 48 }],
          editorError := "" }

/-- Outcome of the awaited `renderThumbnail(num)` call for one page: a data
URL, an empty string (`canvas.getContext` returned null), or a rejection. -/
inductive ThumbOutcome where
  | ok (dataUrl : String)
  | blank
  | reject (msg : String)
deriving DecidableEq, Repr

/-- Environment of one thumbnail-generation run: the outcome of each page's
render, and the number of completed awaits after which the effect's `cancelled`
flag is observed set (the cleanup runs when overview mode is deactivated or the
document changes); `none` means the run is never cancelled. -/
structure ThumbEnv where
  outcome : Nat → ThumbOutcome
  cancelAt : Option Nat

/-- Whether the `cancelled` flag is set once `awaits` awaited calls completed. -/
def thumbCancelled (env : ThumbEnv) (awaits : Nat) : Bool :=
  match env.cancelAt with
  | none => false
  | some k => k ≤ awaits

/-- Reading `thumbnails[num]` from the cache object, embedded as an association list. -/
def thumbLookup : List (Nat × String) → Nat → Option String
  | [], _ => none
  | (k, v) :: rest, num => if k = num then some v else thumbLookup rest num

/-- The functional cache update `setThumbnails((prev) => prev[num] ? prev :
\x7b ...prev, [num]: dataUrl \x7d)` (PdfInlineViewer.jsx lines 156-159). -/
def thumbInsert (cache : List (Nat × String)) (num : Nat) (d : String) : List (Nat × String) :=
  if (thumbLookup cache num).isSome then cache else (num, d) :: cache

/-- Result of one thumbnail-generation run: the final cache, the pages whose
thumbnails were produced in order, and the logged per-page failures. -/
structure ThumbRun where
  cache : List (Nat × String)
  rendered : List Nat
  logged : List (Nat × String)
deriving DecidableEq, Repr

/-- The loop body of `renderAllThumbs` (PdfInlineViewer.jsx lines 147-165) over
an explicit list of remaining page numbers, threading the await counter and the
cache: check `cancelled` at the top, skip already-cached pages, await the
render, re-check `cancelled`, skip blank results, store the data URL; a
rejection is logged (only when not cancelled) and the loop continues. -/
def renderThumbsFrom (env : ThumbEnv) : List Nat → Nat → List (Nat × String) → ThumbRun
  | [], _, cache => ⟨cache, [], []⟩
  | num :: rest, awaits, cache =>
    if thumbCancelled env awaits then ⟨cache, [], []⟩
    else if (thumbLookup cache num).isSome then renderThumbsFrom env rest awaits cache
    else
      match env.outcome num with
      | .reject msg =>
        let r := renderThumbsFrom env rest (awaits + 1) cache
        if thumbCancelled env (awaits + 1) then r
        else { r with logged := (num, msg) :: r.logged }
      | .blank =>
        if thumbCancelled env (awaits + 1) then ⟨cache, [], []⟩
        else renderThumbsFrom env rest (awaits + 1) cache
      | .ok d =>
        if thumbCancelled env (awaits + 1) then ⟨cache, [], []⟩
        else
          let r := renderThumbsFrom env rest (awaits + 1) (thumbInsert cache num d)
          { r with rendered := num :: r.rendered }

/-- JS `renderAllThumbs` (PdfInlineViewer.jsx lines 147-165): iterate pages
`1..totalPages` in ascending order starting from the given cache. -/
def renderAllThumbs (env : ThumbEnv) (totalPages : Nat) (cache : List (Nat × String)) : ThumbRun :=
  renderThumbsFrom env (List.range' 1 totalPages) 0 cache

/-- A started page render task: its identity and target page. -/
structure RTask where
  rid : Nat
  page : Nat
deriving DecidableEq, Repr

/-- State of the render-task lifecycle of one viewer instance: a fresh task id
counter, the started-but-unsettled tasks (most recent first, mirroring
`renderTaskRef` holding the latest), the ids cancelled by effect cleanups, the
page currently painted on the drawing surface, the surfaced render errors, and
the page of the most recent render request. -/
structure RenderState where
  nextId : Nat
  tasks : List RTask
  cancelledIds : List Nat
  surface : Option Nat
  renderErrors : List String
  lastReq : Option Nat
deriving DecidableEq, Repr

/-- Events of the render lifecycle (PdfInlineViewer.jsx lines 174-227):
a new effect run for a page (whose cleanup first cancels `renderTaskRef.current`),
a task's promise resolving, or rejecting with a genuine (non-cancellation)
render failure. A cancelled task's promise rejects with
`RenderingCancelledException`, which the catch block swallows: that is the
`settle` of a cancelled id. -/
inductive RenderEvent where
  | request (page : Nat)
  | settle (rid : Nat)
  | failure (rid : Nat) (msg : String)
deriving DecidableEq, Repr

/-- The cleanup of the render effect (PdfInlineViewer.jsx lines 220-226):
cancel the task currently held by `renderTaskRef`, i.e. the most recent one. -/
def cancelCurrent (s : RenderState) : List Nat :=
  match s.tasks with
  | [] => s.cancelledIds
  | t :: _ => t.rid :: s.cancelledIds

/-- One step of the render lifecycle. A request cancels the previous task and
starts a fresh one. A settle of a cancelled task is the swallowed
`RenderingCancelledException`: it touches neither the surface nor the errors;
a settle of the live task paints its page. A genuine failure surfaces its
message only when the task was not cancelled (`if (!cancelled) setError(...)`). -/
def rstep (s : RenderState) : RenderEvent → RenderState
  | .request p =>
    { s with nextId := s.nextId + 1,
             tasks := ⟨s.nextId, p⟩ :: s.tasks,
             cancelledIds := cancelCurrent s,
             lastReq := some p }
  | .settle rid =>
    match s.tasks.find? (fun t => t.rid == rid) with
    | none => s
    | some t =>
      let remaining := s.tasks.filter (fun u => u.rid != rid)
      if rid ∈ s.cancelledIds then { s with tasks := remaining }
      else { s with tasks := remaining, surface := some t.page }
  | .failure rid msg =>
    match s.tasks.find? (fun t => t.rid == rid) with
    | none => s
    | some _ =>
      let remaining := s.tasks.filter (fun u => u.rid != rid)
      if rid ∈ s.cancelledIds then { s with tasks := remaining }
      else { s with tasks := remaining, renderErrors := msg :: s.renderErrors }

/-- The initial render-lifecycle state of a freshly mounted viewer. -/
def renderInit : RenderState := ⟨0, [], [], none, [], none⟩

/-- Run a whole event trace from the initial state. -/
def runRender (tr : List RenderEvent) : RenderState := tr.foldl rstep renderInit

/-- The tasks not yet cancelled: the renders genuinely in flight. -/
def activeTasks (s : RenderState) : List RTask :=
  s.tasks.filter (fun t => decide (t.rid ∉ s.cancelledIds))

/-- The page of the most recent `request` event of a trace. -/
def latestRequested (tr : List RenderEvent) : Option Nat :=
  tr.foldl (fun acc e => match e with | .request p => some p | _ => acc) none

/-! ## Supporting lemmas -/

theorem jsOrMsg_ne_empty (m : String) : jsOrMsg m ≠ "" := by
  unfold jsOrMsg
  split
  · decide
  · assumption

theorem le_clamp (v lo hi : ℚ) (h : lo ≤ hi) : lo ≤ clamp v lo hi :=
  le_min (le_max_right v lo) h

theorem clamp_le (v lo hi : ℚ) : clamp v lo hi ≤ hi := min_le_right _ _

theorem forall_dropWhile (p : Char → Bool) (l : List Char) :
    (∀ c ∈ l.dropWhile p, p c = true) ↔ (∀ c ∈ l, p c = true) := by
  constructor
  · intro hd c hc
    have hsplit := List.takeWhile_append_dropWhile (p := p) (l := l)
    rw [← hsplit] at hc
    rcases List.mem_append.1 hc with h1 | h2
    · exact List.mem_takeWhile_imp h1
    · exact hd c h2
  · intro hall c hc
    exact hall c ((List.dropWhile_sublist p).mem hc)

theorem jsTrimEnd_eq_nil_iff (l : List Char) :
    jsTrimEnd l = [] ↔ ∀ c ∈ l, c.isWhitespace = true := by
  unfold jsTrimEnd
  rw [List.reverse_eq_nil_iff, List.dropWhile_eq_nil_iff]
  constructor
  · intro hrev c hc
    exact hrev c (List.mem_reverse.2 hc)
  · intro hall c hc
    exact hall c (List.mem_reverse.1 hc)

theorem forall_jsTrimEnd (l : List Char) :
    (∀ c ∈ jsTrimEnd l, c.isWhitespace = true) ↔ (∀ c ∈ l, c.isWhitespace = true) := by
  unfold jsTrimEnd
  have h1 : (∀ c ∈ (l.reverse.dropWhile Char.isWhitespace).reverse, c.isWhitespace = true) ↔
      (∀ c ∈ l.reverse.dropWhile Char.isWhitespace, c.isWhitespace = true) := by
    constructor
    · intro h c hc; exact h c (List.mem_reverse.2 hc)
    · intro h c hc; exact h c (List.mem_reverse.1 hc)
  rw [h1, forall_dropWhile]
  constructor
  · intro h c hc; exact h c (List.mem_reverse.2 hc)
  · intro h c hc; exact h c (List.mem_reverse.1 hc)

theorem jsTrim_eq_nil_iff (l : List Char) :
    jsTrim l = [] ↔ (∀ c ∈ l, c.isWhitespace = true) := by
  unfold jsTrim jsTrimStart
  rw [jsTrimEnd_eq_nil_iff, forall_dropWhile]

/-- The blank-text check of `handleLayerClick` (`!textInput.trimEnd().trim()`)
accepts exactly the inputs with a non-whitespace character. -/
theorem jsTrim_jsTrimEnd_eq_nil_iff (t : List Char) :
    jsTrim (jsTrimEnd t) = [] ↔ t.all Char.isWhitespace = true := by
  rw [jsTrim_eq_nil_iff, forall_jsTrimEnd, List.all_eq_true]

theorem splitNl_ne_nil (s : List Char) : splitNl s ≠ [] := by
  cases s with
  | nil => simp [splitNl]
  | cons c rest =>
    unfold splitNl
    split
    · simp
    · split <;> simp

theorem stampLines_page (pg : Nat) (bx b0 ds : ℚ) (col : Rgb) :
    ∀ (i : Nat) (lines : List (List Char)),
      ∀ op ∈ stampLines pg bx b0 ds col i lines, op.page = pg := by
  intro i lines
  induction lines generalizing i with
  | nil => intro op hop; simp [stampLines] at hop
  | cons l rest ih =>
    intro op hop
    unfold stampLines at hop
    rcases List.mem_append.1 hop with h1 | h2
    · split at h1
      · simp at h1
      · rw [List.mem_singleton.1 h1]
    · exact ih (i + 1) op h2

theorem mem_stampLines (pg : Nat) (bx b0 ds : ℚ) (col : Rgb) (op : DrawOp) :
    ∀ (i : Nat) (lines : List (List Char)),
      (op ∈ stampLines pg bx b0 ds col i lines ↔
        ∃ j line, lines.get? j = some line ∧
          ¬(b0 - ((i + j : Nat) : ℚ) * (ds + 2) < 0) ∧
          op = { page := pg, x := bx, y := b0 - ((i + j : Nat) : ℚ) * (ds + 2), size := ds,
                 color := col, text := lineOr line }) := by
  intro i lines
  induction lines generalizing i with
  | nil => simp [stampLines]
  | cons l rest ih =>
    unfold stampLines
    rw [List.mem_append, ih (i + 1)]
    constructor
    · rintro (h1 | ⟨j, line, hget, hcond, hop⟩)
      · split at h1
        · simp at h1
        · refine ⟨0, l, rfl, ?_, ?_⟩
          · simpa using (by assumption : ¬(b0 - (i : ℚ) * (ds + 2) < 0))
          · simpa using List.mem_singleton.1 h1
      · refine ⟨j + 1, line, by simpa using hget, ?_, ?_⟩
        · have hcast : ((i + (j + 1) : Nat) : ℚ) = ((i + 1 + j : Nat) : ℚ) := by push_cast; ring
          rw [hcast]; exact hcond
        · have hcast : ((i + (j + 1) : Nat) : ℚ) = ((i + 1 + j : Nat) : ℚ) := by push_cast; ring
          rw [hcast]; exact hop
    · rintro ⟨j, line, hget, hcond, hop⟩
      cases j with
      | zero =>
        left
        have hl : l = line := by simpa using hget
        subst hl
        split
        · exact absurd (by simpa using (by assumption : b0 - (i : ℚ) * (ds + 2) < 0))
            (by simpa using hcond)
        · simpa using hop
      | succ j' =>
        right
        refine ⟨j', line, by simpa using hget, ?_, ?_⟩
        · have hcast : ((i + (j' + 1) : Nat) : ℚ) = ((i + 1 + j' : Nat) : ℚ) := by push_cast; ring
          rw [← hcast]; exact hcond
        · have hcast : ((i + (j' + 1) : Nat) : ℚ) = ((i + 1 + j' : Nat) : ℚ) := by push_cast; ring
          rw [← hcast]; exact hop

/-- Resolving a 1-based in-range page index against the page list succeeds. -/
theorem jsIndex_inRange (sizes : List (ℚ × ℚ)) (page : Nat) (h1 : 1 ≤ page)
    (h2 : page ≤ sizes.length) :
    ∃ wh, jsIndex sizes ((page : Int) - 1) = some wh ∧ wh ∈ sizes := by
  have hge : (0 : Int) ≤ (page : Int) - 1 := by omega
  have htn : ((page : Int) - 1).toNat = page - 1 := by omega
  have hlt : page - 1 < sizes.length := by omega
  refine ⟨sizes.get ⟨page - 1, hlt⟩, ?_, List.get_mem _ _ _⟩
  unfold jsIndex
  rw [if_pos hge, htn]
  exact List.get?_eq_get hlt

/-- Resolving a 1-based out-of-range page index yields `undefined`. -/
theorem jsIndex_outOfRange (sizes : List (ℚ × ℚ)) (page : Nat)
    (h : page = 0 ∨ sizes.length < page) :
    jsIndex sizes ((page : Int) - 1) = none := by
  unfold jsIndex
  rcases h with h0 | hgt
  · rw [if_neg (by omega)]
  · split
    · have : ((page : Int) - 1).toNat = page - 1 := by omega
      rw [this]
      exact List.get?_eq_none.2 (by omega)
    · rfl

/-- The base y-coordinate `height - clamp(normalizedY, 0, 1) * height` is
nonnegative whenever the page height is. -/
theorem baseY_nonneg (y h : ℚ) (hh : 0 ≤ h) : 0 ≤ h - clamp y 0 1 * h := by
  have h1 : clamp y 0 1 ≤ 1 := clamp_le y 0 1
  have := mul_le_of_le_one_left hh h1
  linarith

theorem stampAnnot_inRange (sizes : List (ℚ × ℚ)) (a : Annot)
    (hH : ∀ wh ∈ sizes, 0 ≤ wh.2) (h1 : 1 ≤ a.page) (h2 : a.page ≤ sizes.length) :
    stampAnnot sizes a ≠ [] ∧ ∀ op ∈ stampAnnot sizes a, op.page = a.page := by
  obtain ⟨wh, hidx, hmem⟩ := jsIndex_inRange sizes a.page h1 h2
  unfold stampAnnot
  rw [hidx]
  constructor
  · obtain ⟨l0, rest, hsplit⟩ := List.exists_cons_of_ne_nil (splitNl_ne_nil a.text)
    rw [hsplit]
    unfold stampLines
    rw [if_neg (by
      have := baseY_nonneg a.y wh.2 (hH wh hmem)
      push_cast
      simp only [Nat.cast_zero, zero_mul, sub_zero]
      linarith)]
    simp
  · exact stampLines_page _ _ _ _ _ 0 _

theorem stampAnnot_outOfRange (sizes : List (ℚ × ℚ)) (a : Annot)
    (h : a.page = 0 ∨ sizes.length < a.page) : stampAnnot sizes a = [] := by
  unfold stampAnnot
  rw [jsIndex_outOfRange sizes a.page h]

/-! ## Claim theorems -/

/-- C10: the color conversion used by the save pipeline is total: an input
whose trimmed, `#`-stripped form is exactly six hexadecimal digits parses to
the componentwise hex-pair value divided by 255, and every other input
(including a null or empty one) yields the fixed default red
`rgb(0.78, 0.16, 0.16)`. -/
theorem toRgbColor_total_spec (hex : Option (List Char)) :
    (∀ c0 c1 c2 c3 c4 c5,
        stripHash (jsTrim (hex.getD [])) = [c0, c1, c2, c3, c4, c5] →
        (stripHash (jsTrim (hex.getD []))).all isHexDigit = true →
        toRgbColor hex =
          ⟨(16 * hexDigitVal c0 + hexDigitVal c1 : ℚ) / 255,
           (16 * hexDigitVal c2 + hexDigitVal c3 : ℚ) / 255,
           (16 * hexDigitVal c4 + hexDigitVal c5 : ℚ) / 255⟩) ∧
    (((stripHash (jsTrim (hex.getD []))).length ≠ 6 ∨
        (stripHash (jsTrim (hex.getD []))).all isHexDigit = false) →
      toRgbColor hex = ⟨78 / 100, 16 / 100, 16 / 100⟩) := by
  unfold toRgbColor
  constructor
  · intro c0 c1 c2 c3 c4 c5 h6 hall
    rw [h6] at hall ⊢
    unfold toRgbCore
    rw [hall]
  · intro hbad
    unfold toRgbCore
    split
    · rename_i d0 d1 d2 d3 d4 d5 hlist hall2
      exfalso
      rcases hbad with hlen | hfalse
      · rw [hlist] at hlen; simp at hlen
      · rw [hall2] at hfalse
        exact Bool.noConfusion hfalse
    · rfl

/-- C10 witness: a well-formed color string parses componentwise, and a
malformed one falls back to the default red. -/
theorem toRgbColor_total_spec_witness :
    toRgbColor (some ['#', 'f', 'f', '0', '0', '0', '0']) = ⟨1, 0, 0⟩ ∧
    toRgbColor none = ⟨78 / 100, 16 / 100, 16 / 100⟩ := by
  constructor
  · have h := (toRgbColor_total_spec (some ['#', 'f', 'f', '0', '0', '0', '0'])).1
      'f' 'f' '0' '0' '0' '0' (by decide) (by decide)
    have hf : hexDigitVal 'f' = 15 := rfl
    have h0 : hexDigitVal '0' = 0 := rfl
    rw [h, hf, h0]
    norm_num
  · exact (toRgbColor_total_spec none).2 (Or.inl (by decide))

/-- C7: the annotations rendered over the displayed page are exactly the
members of the in-memory list whose `page` field equals the displayed page
number: membership in `pageAnnotations` is equivalent to membership in the list
together with the page match. -/
theorem pageAnnotations_exact (annots : List Annot) (pageNum : Nat) (a : Annot) :
    a ∈ pageAnnotations annots pageNum ↔ a ∈ annots ∧ a.page = pageNum := by
  simp [pageAnnotations, List.mem_filter]

/-- C6: with a loaded document of `totalPages ≥ 1` pages and an in-range
current page, every operation that changes the page number (previous, next,
overview thumbnail click, and the reset to page 1 on load) stays inside
`[1, totalPages]`, and a render request outside that range is rejected before
the renderer is invoked. -/
theorem page_number_clamped (totalPages pageNum : Nat) (hT : 1 ≤ totalPages)
    (hlo : 1 ≤ pageNum) (hhi : pageNum ≤ totalPages) :
    (1 ≤ prevPageClick pageNum ∧ prevPageClick pageNum ≤ totalPages) ∧
    (1 ≤ nextPageClick totalPages pageNum ∧ nextPageClick totalPages pageNum ≤ totalPages) ∧
    (∀ num ∈ thumbGridPages totalPages, 1 ≤ num ∧ num ≤ totalPages) ∧
    (1 ≤ 1 ∧ 1 ≤ totalPages) ∧
    (∀ n, n = 0 ∨ totalPages < n → (attemptRender totalPages n).rendererInvoked = false) ∧
    (∀ n, 1 ≤ n → n ≤ totalPages → (attemptRender totalPages n).rendererInvoked = true) := by
  refine ⟨⟨?_, ?_⟩, ⟨?_, ?_⟩, ?_, ⟨le_refl 1, hT⟩, ?_, ?_⟩
  · unfold prevPageClick; omega
  · unfold prevPageClick; omega
  · unfold nextPageClick; omega
  · unfold nextPageClick; omega
  · intro num hnum
    unfold thumbGridPages at hnum
    rw [List.mem_range'_1] at hnum
    omega
  · intro n hn
    have hno : ¬(1 ≤ n ∧ n ≤ totalPages) := by omega
    simp [attemptRender, getPageResult, hno]
  · intro n h1 h2
    simp [attemptRender, getPageResult, h1, h2]

/-- C6 witness: for a 5-page document at page 3, all navigation stays in
range and rendering page 0 or page 6 is rejected before the renderer runs. -/
theorem page_number_clamped_witness :
    ((1 ≤ prevPageClick 3 ∧ prevPageClick 3 ≤ 5) ∧
      (1 ≤ nextPageClick 5 3 ∧ nextPageClick 5 3 ≤ 5) ∧
      (∀ num ∈ thumbGridPages 5, 1 ≤ num ∧ num ≤ 5) ∧
      (1 ≤ 1 ∧ 1 ≤ 5) ∧
      (∀ n, n = 0 ∨ 5 < n → (attemptRender 5 n).rendererInvoked = false) ∧
      (∀ n, 1 ≤ n → n ≤ 5 → (attemptRender 5 n).rendererInvoked = true)) ∧
    (attemptRender 5 0).rendererInvoked = false ∧
    (attemptRender 5 6).rendererInvoked = false := by
  have h := page_number_clamped 5 3 (by decide) (by decide) (by decide)
  exact ⟨h, h.2.2.2.2.1 0 (Or.inl rfl), h.2.2.2.2.1 6 (Or.inr (by decide))⟩

/-- C2: invoking save with an empty pending list fails locally: the state
gains only the local validation message, no fetch of the source bytes starts,
and the persistence callback is never invoked. -/
theorem save_empty_is_local (env : SaveEnv) (st : EditState) (h : st.annotations = []) :
    saveEditedPdf true true env st =
      ⟨{ st with editorError := noAnnotsMsg }, false, false, []⟩ := by
  obtain ⟨anns, em, ee⟩ := st
  simp only at h
  subst h
  rfl

/-- C2 witness: a concrete save with zero pending annotations performs no
fetch, never invokes the callback, and only sets the local message. -/
theorem save_empty_is_local_witness :
    saveEditedPdf true true ⟨.resolved true, .ok [(100, 200)], .ok (), .ok ()⟩ ⟨[], true, ""⟩ =
      ⟨⟨[], true, noAnnotsMsg⟩, false, false, []⟩ :=
  save_empty_is_local ⟨.resolved true, .ok [(100, 200)], .ok (), .ok ()⟩ ⟨[], true, ""⟩ rfl

/-- A concrete all-successful save environment with one 100×200 page. -/
def envAllOk : SaveEnv := ⟨.resolved true, .ok [(100, 200)], .ok (), .ok ()⟩

/-- A concrete edit state with one pending annotation on page 1. -/
def stOne : EditState :=
  ⟨[⟨"a1", 1, 0, 0, ['H', 'i'], ['f', 'f', '0', '0', '0', '0'], 14⟩], true, ""⟩

/-- C1: the save pipeline is atomic with respect to the pending list: when
every awaited step succeeds, the pending annotations are cleared and edit mode
is turned off; when any step fails (fetch rejecting or non-ok, parse,
serialize, or the persistence callback rejecting), the pending list and edit
mode are exactly as before and a single nonempty human-readable error message
is surfaced. -/
theorem save_pipeline_atomic (env : SaveEnv) (st : EditState) (hNE : st.annotations ≠ []) :
    (saveAllOk env →
      (saveEditedPdf true true env st).state.annotations = [] ∧
      (saveEditedPdf true true env st).state.editMode = false) ∧
    (¬ saveAllOk env →
      (saveEditedPdf true true env st).state.annotations = st.annotations ∧
      (saveEditedPdf true true env st).state.editMode = st.editMode ∧
      (saveEditedPdf true true env st).state.editorError ≠ "") := by
  obtain ⟨fo, po, so, co⟩ := env
  obtain ⟨anns, em, ee⟩ := st
  cases anns with
  | nil => exact absurd rfl hNE
  | cons a rest =>
    cases fo with
    | reject m =>
      refine ⟨fun hok => ?_, fun _ => ⟨rfl, rfl, jsOrMsg_ne_empty m⟩⟩
      exact absurd hok.1 (by simp)
    | resolved ok =>
      cases ok with
      | false =>
        refine ⟨fun hok => ?_, fun _ => ⟨rfl, rfl, jsOrMsg_ne_empty fetchNotOkMsg⟩⟩
        exact absurd hok.1 (by simp)
      | true =>
        cases po with
        | error m =>
          refine ⟨fun hok => ?_, fun _ => ⟨rfl, rfl, jsOrMsg_ne_empty m⟩⟩
          exact absurd hok.2.1 (by simp [exceptOk])
        | ok sizes =>
          cases so with
          | error m =>
            refine ⟨fun hok => ?_, fun _ => ⟨rfl, rfl, jsOrMsg_ne_empty m⟩⟩
            exact absurd hok.2.2.1 (by simp [exceptOk])
          | ok u =>
            cases co with
            | error m =>
              refine ⟨fun hok => ?_, fun _ => ⟨rfl, rfl, jsOrMsg_ne_empty m⟩⟩
              exact absurd hok.2.2.2 (by simp [exceptOk])
            | ok u2 =>
              exact ⟨fun _ => ⟨rfl, rfl⟩, fun hnok => absurd ⟨rfl, rfl, rfl, rfl⟩ hnok⟩

/-- C1 witness: the atomicity statement instantiated at a concrete
all-successful environment and a one-annotation state. -/
theorem save_pipeline_atomic_witness :
    (saveAllOk envAllOk →
      (saveEditedPdf true true envAllOk stOne).state.annotations = [] ∧
      (saveEditedPdf true true envAllOk stOne).state.editMode = false) ∧
    (¬ saveAllOk envAllOk →
      (saveEditedPdf true true envAllOk stOne).state.annotations = stOne.annotations ∧
      (saveEditedPdf true true envAllOk stOne).state.editMode = stOne.editMode ∧
      (saveEditedPdf true true envAllOk stOne).state.editorError ≠ "") :=
  save_pipeline_atomic envAllOk stOne (List.cons_ne_nil _ _)

/-- C3: when the fetch and parse steps succeed, the save stamps exactly the
flattened per-annotation draw operations; every pending annotation whose
1-based page index is in range is stamped (nonempty output, all on its own
page), every out-of-range one is silently skipped, and the pending list is
cleared exactly when serialization and the persistence callback both
succeed. -/
theorem save_stamps_in_range (env : SaveEnv) (st : EditState) (sizes : List (ℚ × ℚ))
    (hNE : st.annotations ≠ [])
    (hF : env.fetchOutcome = .resolved true)
    (hP : env.parseOutcome = .ok sizes)
    (hH : ∀ wh ∈ sizes, 0 ≤ wh.2) :
    ((saveEditedPdf true true env st).drawOps = st.annotations.flatMap (stampAnnot sizes)) ∧
    (∀ a ∈ st.annotations, 1 ≤ a.page → a.page ≤ sizes.length →
        stampAnnot sizes a ≠ [] ∧ ∀ op ∈ stampAnnot sizes a, op.page = a.page) ∧
    (∀ a ∈ st.annotations, sizes.length < a.page → stampAnnot sizes a = []) ∧
    ((saveEditedPdf true true env st).state.annotations = [] ↔
      exceptOk env.serializeOutcome = true ∧ exceptOk env.callbackOutcome = true) := by
  obtain ⟨fo, po, so, co⟩ := env
  obtain ⟨anns, em, ee⟩ := st
  dsimp only at hF hP hNE ⊢
  subst hF
  subst hP
  cases anns with
  | nil => exact absurd rfl hNE
  | cons a rest =>
    refine ⟨?_, ?_, ?_, ?_⟩
    · cases so with
      | error m => rfl
      | ok u => cases co with
        | error m => rfl
        | ok u2 => rfl
    · intro a' _ h1 h2
      exact stampAnnot_inRange sizes a' hH h1 h2
    · intro a' _ hgt
      exact stampAnnot_outOfRange sizes a' (Or.inr hgt)
    · cases so with
      | error m =>
        exact ⟨fun habs => absurd habs (List.cons_ne_nil a rest),
               fun hok => Bool.noConfusion hok.1⟩
      | ok u =>
        cases co with
        | error m =>
          exact ⟨fun habs => absurd habs (List.cons_ne_nil a rest),
                 fun hok => Bool.noConfusion hok.2⟩
        | ok u2 => exact ⟨fun _ => ⟨rfl, rfl⟩, fun _ => rfl⟩

/-- C3 witness: the stamping statement instantiated at the concrete
all-successful environment and one-annotation state. -/
theorem save_stamps_in_range_witness :
    ((saveEditedPdf true true envAllOk stOne).drawOps =
        stOne.annotations.flatMap (stampAnnot [(100, 200)])) ∧
    (∀ a ∈ stOne.annotations, 1 ≤ a.page → a.page ≤ ([(100, 200)] : List (ℚ × ℚ)).length →
        stampAnnot [(100, 200)] a ≠ [] ∧ ∀ op ∈ stampAnnot [(100, 200)] a, op.page = a.page) ∧
    (∀ a ∈ stOne.annotations, ([(100, 200)] : List (ℚ × ℚ)).length < a.page →
        stampAnnot [(100, 200)] a = []) ∧
    ((saveEditedPdf true true envAllOk stOne).state.annotations = [] ↔
      exceptOk envAllOk.serializeOutcome = true ∧ exceptOk envAllOk.callbackOutcome = true) :=
  save_stamps_in_range envAllOk stOne [(100, 200)] (List.cons_ne_nil _ _) rfl rfl
    (by intro wh hwh; rw [List.mem_singleton.1 hwh]; norm_num)

/-- C4: for an annotation whose page resolves to a page of size `w × h`, the
stamped operations are exactly one text run per newline-split line `i` whose
vertical position `h - clamp(y,0,1)*h - i*(size+2)` is not below the page's
bottom edge, drawn at `x = clamp(x,0,1)*w`; lines computed below `y = 0` are
not drawn. -/
theorem stamp_position_formula (pages : List (ℚ × ℚ)) (a : Annot) (w h : ℚ)
    (hp : jsIndex pages ((a.page : Int) - 1) = some (w, h)) :
    ∀ op, op ∈ stampAnnot pages a ↔
      ∃ i line, (splitNl a.text).get? i = some line ∧
        ¬(h - clamp a.y 0 1 * h - (i : ℚ) * (clamp (jsOr a.size 14) 8 48 + 2) < 0) ∧
        op = { page := a.page, x := clamp a.x 0 1 * w,
               y := h - clamp a.y 0 1 * h - (i : ℚ) * (clamp (jsOr a.size 14) 8 48 + 2),
               size := clamp (jsOr a.size 14) 8 48, color := toRgbColor (some a.color),
               text := lineOr line } := by
  intro op
  unfold stampAnnot
  rw [hp]
  dsimp only
  rw [mem_stampLines]
  constructor
  · rintro ⟨j, line, hget, hcond, hop⟩
    exact ⟨j, line, hget, by simpa using hcond, by simpa using hop⟩
  · rintro ⟨i, line, hget, hcond, hop⟩
    exact ⟨i, line, hget, by simpa using hcond, by simpa using hop⟩

/-- A concrete annotation used to instantiate the position formula. -/
def annotW : Annot := ⟨"a2", 1, 1/2, 1/4, ['H', 'i', '\n', 'Y', 'o'], ['f', 'f', '0', '0', '0', '0'], 14⟩

/-- A concrete draw op: the first line of `annotW` stamped on the 100×200 page. -/
def opW : DrawOp := ⟨1, 50, 150, 14, ⟨1, 0, 0⟩, ['H', 'i']⟩

/-- C4 witness: the position formula instantiated at a two-line annotation on
a 100×200 page and a concrete draw op. -/
theorem stamp_position_formula_witness :
    opW ∈ stampAnnot [(100, 200)] annotW ↔
      ∃ i line, (splitNl annotW.text).get? i = some line ∧
        ¬((200 : ℚ) - clamp annotW.y 0 1 * 200 - (i : ℚ) * (clamp (jsOr annotW.size 14) 8 48 + 2) < 0) ∧
        opW = { page := annotW.page, x := clamp annotW.x 0 1 * 100,
                y := (200 : ℚ) - clamp annotW.y 0 1 * 200 - (i : ℚ) * (clamp (jsOr annotW.size 14) 8 48 + 2),
                size := clamp (jsOr annotW.size 14) 8 48, color := toRgbColor (some annotW.color),
                text := lineOr line } :=
  stamp_position_formula [(100, 200)] annotW 100 200 rfl opW

/-- C8: annotation creation from a layer click: an entered text that is empty
or whitespace-only adds nothing and raises no error (the state is unchanged);
otherwise exactly one annotation is appended, with its normalized coordinates
clamped to `[0, 1]` and its font size clamped to `[8, 48]`. -/
theorem click_adds_clamped (canvasW canvasH : ℚ) (t : List Char)
    (clientX clientY rectLeft rectTop rectW rectH : ℚ)
    (newId : String) (pageNum : Nat) (annotColor : List Char) (annotSize : ℚ)
    (st : ClickState) (hW : ¬ canvasW = 0) (hH : ¬ canvasH = 0) :
    (t.all Char.isWhitespace = true →
      handleLayerClick true true false false false canvasW canvasH (some t)
        clientX clientY rectLeft rectTop rectW rectH newId pageNum annotColor annotSize st = st) ∧
    (t.all Char.isWhitespace = false →
      handleLayerClick true true false false false canvasW canvasH (some t)
        clientX clientY rectLeft rectTop rectW rectH newId pageNum annotColor annotSize st =
        { annotations := st.annotations ++
            [{ id := newId, page := pageNum,
               x := clamp ((clientX - rectLeft) / rectW) 0 1,
               y := clamp ((clientY - rectTop) / rectH) 0 1,
               text := jsTrimEnd t, color := annotColor,
               size := clamp (jsOr annotSize 14) 8 48 }],
          editorError := "" } ∧
      (0 ≤ clamp ((clientX - rectLeft) / rectW) 0 1 ∧ clamp ((clientX - rectLeft) / rectW) 0 1 ≤ 1) ∧
      (0 ≤ clamp ((clientY - rectTop) / rectH) 0 1 ∧ clamp ((clientY - rectTop) / rectH) 0 1 ≤ 1) ∧
      (8 ≤ clamp (jsOr annotSize 14) 8 48 ∧ clamp (jsOr annotSize 14) 8 48 ≤ 48)) := by
  have hguard : ¬(canvasW = 0 ∨ canvasH = 0) := by tauto
  constructor
  · intro hws
    unfold handleLayerClick
    rw [if_neg hguard]
    dsimp only
    rw [if_pos ((jsTrim_jsTrimEnd_eq_nil_iff t).2 hws)]
    rfl
  · intro hws
    have hne : ¬ jsTrim (jsTrimEnd t) = [] := by
      intro hnil
      rw [(jsTrim_jsTrimEnd_eq_nil_iff t).1 hnil] at hws
      exact Bool.noConfusion hws
    refine ⟨?_, ⟨le_clamp _ 0 1 (by norm_num), clamp_le _ 0 1⟩,
      ⟨le_clamp _ 0 1 (by norm_num), clamp_le _ 0 1⟩,
      ⟨le_clamp _ 8 48 (by norm_num), clamp_le _ 8 48⟩⟩
    unfold handleLayerClick
    rw [if_neg hguard]
    dsimp only
    rw [if_neg hne]
    rfl

/-- C8 witness: a concrete click at the layer's midpoint with text produces
exactly one clamped annotation, and a whitespace-only text is a no-op. -/
theorem click_adds_clamped_witness :
    ((['H', 'i'].all Char.isWhitespace = true →
      handleLayerClick true true false false false 800 600 (some ['H', 'i'])
        140 90 40 40 200 200 "id1" 2 ['c', '6'] 14 ⟨[], "old"⟩ = ⟨[], "old"⟩) ∧
    (['H', 'i'].all Char.isWhitespace = false →
      handleLayerClick true true false false false 800 600 (some ['H', 'i'])
        140 90 40 40 200 200 "id1" 2 ['c', '6'] 14 ⟨[], "old"⟩ =
        { annotations := ([] : List Annot) ++
            [{ id := "id1", page := 2,
               x := clamp (((140 : ℚ) - 40) / 200) 0 1,
               y := clamp (((90 : ℚ) - 40) / 200) 0 1,
               text := jsTrimEnd ['H', 'i'], color := ['c', '6'],
               size := clamp (jsOr 14 14) 8 48 }],
          editorError := "" } ∧
      (0 ≤ clamp (((140 : ℚ) - 40) / 200) 0 1 ∧ clamp (((140 : ℚ) - 40) / 200) 0 1 ≤ 1) ∧
      (0 ≤ clamp (((90 : ℚ) - 40) / 200) 0 1 ∧ clamp (((90 : ℚ) - 40) / 200) 0 1 ≤ 1) ∧
      (8 ≤ clamp (jsOr 14 14) 8 48 ∧ clamp (jsOr 14 14) 8 48 ≤ 48))) :=
  click_adds_clamped 800 600 ['H', 'i'] 140 90 40 40 200 200 "id1" 2 ['c', '6'] 14
    ⟨[], "old"⟩ (by norm_num) (by norm_num)

/-- Invariant of the render-task lifecycle: task ids and cancelled ids are
below the fresh-id counter, every non-cancelled started task targets the most
recently requested page, and every started task other than the most recent one
is already cancelled. -/
structure RenderInv (s : RenderState) : Prop where
  fresh_tasks : ∀ t ∈ s.tasks, t.rid < s.nextId
  fresh_cancelled : ∀ i ∈ s.cancelledIds, i < s.nextId
  active_latest : ∀ t ∈ s.tasks, t.rid ∉ s.cancelledIds → s.lastReq = some t.page
  tail_cancelled : s.tasks.Pairwise (fun _ u => u.rid ∈ s.cancelledIds)

theorem renderInv_init : RenderInv renderInit := by
  constructor <;> simp [renderInit]

theorem cancelCurrent_sub (s : RenderState) : ∀ i ∈ s.cancelledIds, i ∈ cancelCurrent s := by
  unfold cancelCurrent
  intro i hi
  cases s.tasks with
  | nil => exact hi
  | cons t rest => exact List.mem_cons_of_mem _ hi

/-- Settling a task only removes it from the started list (and possibly
updates surface or errors, which the invariant does not mention). -/
theorem renderInv_update (s : RenderState) (hs : RenderInv s) (rid : Nat)
    (surf : Option Nat) (errs : List String) :
    RenderInv { s with tasks := s.tasks.filter (fun u => u.rid != rid),
                       surface := surf, renderErrors := errs } := by
  refine ⟨?_, ?_, ?_, ?_⟩
  · intro u hu
    exact hs.fresh_tasks u (List.mem_of_mem_filter hu)
  · exact hs.fresh_cancelled
  · intro u hu hnc
    exact hs.active_latest u (List.mem_of_mem_filter hu) hnc
  · exact hs.tail_cancelled.sublist (List.filter_sublist _)

theorem renderInv_step (s : RenderState) (e : RenderEvent) (hs : RenderInv s) :
    RenderInv (rstep s e) := by
  cases e with
  | request p =>
    constructor
    · intro t ht
      simp only [rstep, List.mem_cons] at ht ⊢
      rcases ht with h1 | h2
      · rw [h1]; exact Nat.lt_succ_self _
      · have := hs.fresh_tasks t h2; omega
    · intro i hi
      simp only [rstep] at hi ⊢
      unfold cancelCurrent at hi
      rcases htasks : s.tasks with _ | ⟨t0, rest⟩
      · rw [htasks] at hi
        have := hs.fresh_cancelled i hi; omega
      · rw [htasks] at hi
        rcases List.mem_cons.1 hi with h1 | h2
        · have := hs.fresh_tasks t0 (by rw [htasks]; exact List.mem_cons_self t0 rest)
          omega
        · have := hs.fresh_cancelled i h2; omega
    · intro t ht hnc
      simp only [rstep, List.mem_cons] at ht hnc ⊢
      rcases ht with h1 | h2
      · rw [h1]
      · exfalso
        apply hnc
        unfold cancelCurrent
        rcases htasks : s.tasks with _ | ⟨t0, rest⟩
        · rw [htasks] at h2; exact absurd h2 (List.not_mem_nil t)
        · rw [htasks] at h2
          rcases List.mem_cons.1 h2 with hh | hr
          · rw [hh]; exact List.mem_cons_self _ _
          · have hp := hs.tail_cancelled
            rw [htasks] at hp
            have := (List.pairwise_cons.1 hp).1 t hr
            exact List.mem_cons_of_mem _ this
    · simp only [rstep]
      refine List.pairwise_cons.2 ⟨?_, ?_⟩
      · intro u hu
        unfold cancelCurrent
        rcases htasks : s.tasks with _ | ⟨t0, rest⟩
        · rw [htasks] at hu; exact absurd hu (List.not_mem_nil u)
        · rw [htasks] at hu
          rcases List.mem_cons.1 hu with hh | hr
          · rw [hh]; exact List.mem_cons_self _ _
          · have hp := hs.tail_cancelled
            rw [htasks] at hp
            have := (List.pairwise_cons.1 hp).1 u hr
            exact List.mem_cons_of_mem _ this
      · exact hs.tail_cancelled.imp (fun h => cancelCurrent_sub s _ h)
  | settle rid =>
    simp only [rstep]
    cases hfind : s.tasks.find? (fun t => t.rid == rid) with
    | none => exact hs
    | some t =>
      dsimp only
      by_cases hr : rid ∈ s.cancelledIds
      · rw [if_pos hr]
        exact renderInv_update s hs rid s.surface s.renderErrors
      · rw [if_neg hr]
        exact renderInv_update s hs rid (some t.page) s.renderErrors
  | failure rid msg =>
    simp only [rstep]
    cases hfind : s.tasks.find? (fun t => t.rid == rid) with
    | none => exact hs
    | some t =>
      dsimp only
      by_cases hr : rid ∈ s.cancelledIds
      · rw [if_pos hr]
        exact renderInv_update s hs rid s.surface s.renderErrors
      · rw [if_neg hr]
        exact renderInv_update s hs rid s.surface (msg :: s.renderErrors)

theorem renderInv_foldl (tr : List RenderEvent) :
    ∀ s, RenderInv s → RenderInv (tr.foldl rstep s) := by
  induction tr with
  | nil => intro s hs; exact hs
  | cons e rest ih => intro s hs; exact ih _ (renderInv_step s e hs)

theorem renderInv_run (tr : List RenderEvent) : RenderInv (runRender tr) :=
  renderInv_foldl tr renderInit renderInv_init

theorem activeTasks_len_le_one (s : RenderState) (hs : RenderInv s) :
    (activeTasks s).length ≤ 1 := by
  have hp : (activeTasks s).Pairwise (fun _ u => u.rid ∈ s.cancelledIds) :=
    hs.tail_cancelled.sublist (List.filter_sublist _)
  rcases hfq : activeTasks s with _ | ⟨a, _ | ⟨b, l⟩⟩
  · simp
  · simp
  · exfalso
    rw [hfq] at hp
    have hbc : b.rid ∈ s.cancelledIds :=
      (List.pairwise_cons.1 hp).1 b (List.mem_cons_self b l)
    have hbmem : b ∈ activeTasks s := by
      rw [hfq]; exact List.mem_cons_of_mem a (List.mem_cons_self b l)
    have hq := List.of_mem_filter hbmem
    simp at hq
    exact hq hbc

theorem rstep_lastReq (s : RenderState) (e : RenderEvent) :
    (rstep s e).lastReq = match e with
      | .request p => some p
      | _ => s.lastReq := by
  cases e with
  | request p => rfl
  | settle rid =>
    simp only [rstep]
    cases hfind : s.tasks.find? (fun t => t.rid == rid) with
    | none => rfl
    | some t => dsimp only; split <;> rfl
  | failure rid msg =>
    simp only [rstep]
    cases hfind : s.tasks.find? (fun t => t.rid == rid) with
    | none => rfl
    | some t => dsimp only; split <;> rfl

theorem lastReq_foldl (tr : List RenderEvent) :
    ∀ s, (tr.foldl rstep s).lastReq =
      tr.foldl (fun acc e => match e with | .request p => some p | _ => acc) s.lastReq := by
  induction tr with
  | nil => intro s; rfl
  | cons e rest ih =>
    intro s
    rw [List.foldl_cons, List.foldl_cons, ih, rstep_lastReq]

/-- A settle of a cancelled task id changes neither the surface nor the errors. -/
theorem rstep_cancelled_silent (s : RenderState) (rid : Nat) (hr : rid ∈ s.cancelledIds) :
    (rstep s (.settle rid)).surface = s.surface ∧
    (rstep s (.settle rid)).renderErrors = s.renderErrors ∧
    ∀ msg, (rstep s (.failure rid msg)).renderErrors = s.renderErrors := by
  refine ⟨?_, ?_, ?_⟩
  · simp only [rstep]
    cases hfind : s.tasks.find? (fun t => t.rid == rid) with
    | none => rfl
    | some t => dsimp only; rw [if_pos hr]
  · simp only [rstep]
    cases hfind : s.tasks.find? (fun t => t.rid == rid) with
    | none => rfl
    | some t => dsimp only; rw [if_pos hr]
  · intro msg
    simp only [rstep]
    cases hfind : s.tasks.find? (fun t => t.rid == rid) with
    | none => rfl
    | some t => dsimp only; rw [if_pos hr]

/-- A settle either leaves the surface alone or paints the page of the most
recent request. -/
theorem rstep_surface_latest (s : RenderState) (hs : RenderInv s) (rid : Nat) :
    (rstep s (.settle rid)).surface = s.surface ∨
    (rstep s (.settle rid)).surface = s.lastReq := by
  simp only [rstep]
  cases hfind : s.tasks.find? (fun t => t.rid == rid) with
  | none => exact Or.inl rfl
  | some t =>
    dsimp only
    by_cases hr : rid ∈ s.cancelledIds
    · rw [if_pos hr]; exact Or.inl rfl
    · rw [if_neg hr]
      right
      have hmem : t ∈ s.tasks := List.mem_of_find?_eq_some hfind
      have hpred := List.find?_some hfind
      have heq : t.rid = rid := by simpa using hpred
      have : s.lastReq = some t.page := hs.active_latest t hmem (heq ▸ hr)
      rw [this]

/-- C5: along every event trace, at most one render task is genuinely in
flight; a new request cancels the task currently held by the render ref; the
completion of a cancelled task is discarded silently (no surface write, no
surfaced error — also for a genuine failure arriving after cancellation); the
surface is only ever (re)written with the page of the most recent request; and
the tracked last request is exactly the final requested page of the trace. -/
theorem render_single_flight (tr : List RenderEvent) :
    ((activeTasks (runRender tr)).length ≤ 1) ∧
    ((runRender tr).lastReq = latestRequested tr) ∧
    (∀ p t, (runRender tr).tasks.head? = some t →
        t.rid ∈ (rstep (runRender tr) (.request p)).cancelledIds) ∧
    (∀ rid, rid ∈ (runRender tr).cancelledIds →
        (rstep (runRender tr) (.settle rid)).surface = (runRender tr).surface ∧
        (rstep (runRender tr) (.settle rid)).renderErrors = (runRender tr).renderErrors ∧
        ∀ msg, (rstep (runRender tr) (.failure rid msg)).renderErrors =
          (runRender tr).renderErrors) ∧
    (∀ rid, (rstep (runRender tr) (.settle rid)).surface = (runRender tr).surface ∨
        (rstep (runRender tr) (.settle rid)).surface = (runRender tr).lastReq) := by
  have hinv := renderInv_run tr
  refine ⟨activeTasks_len_le_one _ hinv, ?_, ?_, ?_, ?_⟩
  · exact lastReq_foldl tr renderInit
  · intro p t hhead
    simp only [rstep]
    unfold cancelCurrent
    cases htasks : (runRender tr).tasks with
    | nil => rw [htasks] at hhead; exact absurd hhead (by simp)
    | cons t0 rest =>
      rw [htasks] at hhead
      have : t0 = t := by simpa using hhead
      rw [this]
      exact List.mem_cons_self _ _
  · intro rid hr
    exact rstep_cancelled_silent (runRender tr) rid hr
  · intro rid
    exact rstep_surface_latest (runRender tr) hinv rid

/-- C5 witness: the single-flight statement instantiated at a concrete trace
of two rapid page requests followed by both settles. -/
theorem render_single_flight_witness :
    ((activeTasks (runRender [.request 1, .request 2, .settle 0, .settle 1])).length ≤ 1) ∧
    ((runRender [.request 1, .request 2, .settle 0, .settle 1]).lastReq =
        latestRequested [.request 1, .request 2, .settle 0, .settle 1]) ∧
    (∀ p t, (runRender [.request 1, .request 2, .settle 0, .settle 1]).tasks.head? = some t →
        t.rid ∈ (rstep (runRender [.request 1, .request 2, .settle 0, .settle 1])
          (.request p)).cancelledIds) ∧
    (∀ rid, rid ∈ (runRender [.request 1, .request 2, .settle 0, .settle 1]).cancelledIds →
        (rstep (runRender [.request 1, .request 2, .settle 0, .settle 1]) (.settle rid)).surface =
          (runRender [.request 1, .request 2, .settle 0, .settle 1]).surface ∧
        (rstep (runRender [.request 1, .request 2, .settle 0, .settle 1])
            (.settle rid)).renderErrors =
          (runRender [.request 1, .request 2, .settle 0, .settle 1]).renderErrors ∧
        ∀ msg, (rstep (runRender [.request 1, .request 2, .settle 0, .settle 1])
            (.failure rid msg)).renderErrors =
          (runRender [.request 1, .request 2, .settle 0, .settle 1]).renderErrors) ∧
    (∀ rid, (rstep (runRender [.request 1, .request 2, .settle 0, .settle 1])
          (.settle rid)).surface =
        (runRender [.request 1, .request 2, .settle 0, .settle 1]).surface ∨
        (rstep (runRender [.request 1, .request 2, .settle 0, .settle 1]) (.settle rid)).surface =
          (runRender [.request 1, .request 2, .settle 0, .settle 1]).lastReq) :=
  render_single_flight [.request 1, .request 2, .settle 0, .settle 1]

theorem thumbInsert_preserve (cache : List (Nat × String)) (num : Nat) (d : String)
    (n : Nat) (v : String) (h : thumbLookup cache n = some v) :
    thumbLookup (thumbInsert cache num d) n = some v := by
  unfold thumbInsert
  split
  · exact h
  · rename_i hnone
    have hstep : thumbLookup ((num, d) :: cache) n =
        if num = n then some d else thumbLookup cache n := rfl
    rw [hstep]
    by_cases hn : num = n
    · exfalso
      rw [hn] at hnone
      rw [h] at hnone
      simp at hnone
    · rw [if_neg hn]; exact h

theorem thumbInsert_lookup_ne (cache : List (Nat × String)) (num : Nat) (d : String)
    (n : Nat) (hne : num ≠ n) :
    thumbLookup (thumbInsert cache num d) n = thumbLookup cache n := by
  unfold thumbInsert
  split
  · rfl
  · have hstep : thumbLookup ((num, d) :: cache) n =
        if num = n then some d else thumbLookup cache n := rfl
    rw [hstep, if_neg hne]

theorem thumbInsert_hit (cache : List (Nat × String)) (num : Nat) (d : String)
    (h : thumbLookup cache num = none) :
    thumbLookup (thumbInsert cache num d) num = some d := by
  unfold thumbInsert
  rw [h]
  have hstep : thumbLookup ((num, d) :: cache) num =
      if num = num then some d else thumbLookup cache num := rfl
  simp only [Option.isSome_none, Bool.false_eq_true, if_false, hstep, if_pos rfl]
  simp

theorem thumbLookup_preserved (env : ThumbEnv) :
    ∀ (pages : List Nat) (awaits : Nat) (cache : List (Nat × String)) (n : Nat) (v : String),
      thumbLookup cache n = some v →
      thumbLookup (renderThumbsFrom env pages awaits cache).cache n = some v := by
  intro pages
  induction pages with
  | nil => intro awaits cache n v h; exact h
  | cons num rest ih =>
    intro awaits cache n v h
    simp only [renderThumbsFrom]
    by_cases hc : thumbCancelled env awaits
    · rw [if_pos hc]; exact h
    · rw [if_neg hc]
      by_cases hcached : (thumbLookup cache num).isSome
      · rw [if_pos hcached]; exact ih awaits cache n v h
      · rw [if_neg hcached]
        cases ho : env.outcome num with
        | reject msg =>
          dsimp only
          by_cases hc2 : thumbCancelled env (awaits + 1)
          · rw [if_pos hc2]; exact ih (awaits + 1) cache n v h
          · rw [if_neg hc2]; exact ih (awaits + 1) cache n v h
        | blank =>
          dsimp only
          by_cases hc2 : thumbCancelled env (awaits + 1)
          · rw [if_pos hc2]; exact h
          · rw [if_neg hc2]; exact ih (awaits + 1) cache n v h
        | ok d =>
          dsimp only
          by_cases hc2 : thumbCancelled env (awaits + 1)
          · rw [if_pos hc2]; exact h
          · rw [if_neg hc2]
            exact ih (awaits + 1) (thumbInsert cache num d) n v
              (thumbInsert_preserve cache num d n v h)

theorem rendered_sublist (env : ThumbEnv) :
    ∀ (pages : List Nat) (awaits : Nat) (cache : List (Nat × String)),
      (renderThumbsFrom env pages awaits cache).rendered.Sublist pages := by
  intro pages
  induction pages with
  | nil => intro awaits cache; simp [renderThumbsFrom]
  | cons num rest ih =>
    intro awaits cache
    simp only [renderThumbsFrom]
    by_cases hc : thumbCancelled env awaits
    · rw [if_pos hc]; exact List.nil_sublist _
    · rw [if_neg hc]
      by_cases hcached : (thumbLookup cache num).isSome
      · rw [if_pos hcached]; exact (ih awaits cache).cons num
      · rw [if_neg hcached]
        cases ho : env.outcome num with
        | reject msg =>
          dsimp only
          by_cases hc2 : thumbCancelled env (awaits + 1)
          · rw [if_pos hc2]; exact (ih (awaits + 1) cache).cons num
          · rw [if_neg hc2]; exact (ih (awaits + 1) cache).cons num
        | blank =>
          dsimp only
          by_cases hc2 : thumbCancelled env (awaits + 1)
          · rw [if_pos hc2]; exact List.nil_sublist _
          · rw [if_neg hc2]; exact (ih (awaits + 1) cache).cons num
        | ok d =>
          dsimp only
          by_cases hc2 : thumbCancelled env (awaits + 1)
          · rw [if_pos hc2]; exact List.nil_sublist _
          · rw [if_neg hc2]; exact (ih (awaits + 1) (thumbInsert cache num d)).cons₂ num

theorem cached_not_rendered (env : ThumbEnv) :
    ∀ (pages : List Nat) (awaits : Nat) (cache : List (Nat × String)) (n : Nat),
      (thumbLookup cache n).isSome = true →
      n ∉ (renderThumbsFrom env pages awaits cache).rendered := by
  intro pages
  induction pages with
  | nil => intro awaits cache n _; simp [renderThumbsFrom]
  | cons num rest ih =>
    intro awaits cache n hsome
    simp only [renderThumbsFrom]
    by_cases hc : thumbCancelled env awaits
    · rw [if_pos hc]; simp
    · rw [if_neg hc]
      by_cases hcached : (thumbLookup cache num).isSome
      · rw [if_pos hcached]; exact ih awaits cache n hsome
      · rw [if_neg hcached]
        cases ho : env.outcome num with
        | reject msg =>
          dsimp only
          by_cases hc2 : thumbCancelled env (awaits + 1)
          · rw [if_pos hc2]; exact ih (awaits + 1) cache n hsome
          · rw [if_neg hc2]; exact ih (awaits + 1) cache n hsome
        | blank =>
          dsimp only
          by_cases hc2 : thumbCancelled env (awaits + 1)
          · rw [if_pos hc2]; simp
          · rw [if_neg hc2]; exact ih (awaits + 1) cache n hsome
        | ok d =>
          dsimp only
          by_cases hc2 : thumbCancelled env (awaits + 1)
          · rw [if_pos hc2]; simp
          · rw [if_neg hc2]
            intro hmem
            rcases List.mem_cons.1 hmem with h1 | h2
            · rw [h1] at hsome
              rw [Option.isSome_iff_exists] at hsome
              obtain ⟨v, hv⟩ := hsome
              rw [hv] at hcached
              simp at hcached
            · have hsome2 : (thumbLookup (thumbInsert cache num d) n).isSome = true := by
                rw [Option.isSome_iff_exists] at hsome
                obtain ⟨v, hv⟩ := hsome
                rw [thumbInsert_preserve cache num d n v hv]
                rfl
              exact ih (awaits + 1) (thumbInsert cache num d) n hsome2 h2

theorem rendered_length_le (env : ThumbEnv) (k : Nat) (hk : env.cancelAt = some k) :
    ∀ (pages : List Nat) (awaits : Nat) (cache : List (Nat × String)),
      (renderThumbsFrom env pages awaits cache).rendered.length ≤ k - awaits := by
  intro pages
  induction pages with
  | nil => intro awaits cache; simp [renderThumbsFrom]
  | cons num rest ih =>
    intro awaits cache
    simp only [renderThumbsFrom]
    by_cases hc : thumbCancelled env awaits
    · rw [if_pos hc]; simp
    · rw [if_neg hc]
      by_cases hcached : (thumbLookup cache num).isSome
      · rw [if_pos hcached]
        exact ih awaits cache
      · rw [if_neg hcached]
        cases ho : env.outcome num with
        | reject msg =>
          dsimp only
          have hr := ih (awaits + 1) cache
          by_cases hc2 : thumbCancelled env (awaits + 1)
          · rw [if_pos hc2]; exact hr.trans (by omega)
          · rw [if_neg hc2]; exact hr.trans (by omega)
        | blank =>
          dsimp only
          by_cases hc2 : thumbCancelled env (awaits + 1)
          · rw [if_pos hc2]; simp
          · rw [if_neg hc2]; exact (ih (awaits + 1) cache).trans (by omega)
        | ok d =>
          dsimp only
          by_cases hc2 : thumbCancelled env (awaits + 1)
          · rw [if_pos hc2]; simp
          · rw [if_neg hc2]
            have hlt2 : awaits + 1 < k := by
              unfold thumbCancelled at hc2
              rw [hk] at hc2
              simpa using hc2
            have hr := ih (awaits + 1) (thumbInsert cache num d)
            simp only [List.length_cons]
            omega

theorem ok_page_cached (env : ThumbEnv) (hnc : env.cancelAt = none) (n : Nat) (d : String) :
    ∀ (pages : List Nat) (awaits : Nat) (cache : List (Nat × String)),
      (thumbLookup cache n = some d ∨
        (thumbLookup cache n = none ∧ n ∈ pages ∧ env.outcome n = .ok d)) →
      thumbLookup (renderThumbsFrom env pages awaits cache).cache n = some d := by
  have hnever : ∀ a, thumbCancelled env a = false := by
    intro a; unfold thumbCancelled; rw [hnc]
  intro pages
  induction pages with
  | nil =>
    intro awaits cache h
    rcases h with h | ⟨_, hmem, _⟩
    · exact h
    · exact absurd hmem (List.not_mem_nil n)
  | cons num rest ih =>
    intro awaits cache h
    simp only [renderThumbsFrom]
    rw [if_neg (by rw [hnever]; exact Bool.false_ne_true)]
    by_cases hcached : (thumbLookup cache num).isSome
    · rw [if_pos hcached]
      apply ih awaits cache
      rcases h with h | ⟨hnone, hmem, hok⟩
      · exact Or.inl h
      · refine Or.inr ⟨hnone, ?_, hok⟩
        rcases List.mem_cons.1 hmem with h1 | h2
        · exfalso
          rw [h1] at hnone
          rw [hnone] at hcached
          simp at hcached
        · exact h2
    · rw [if_neg hcached]
      cases ho : env.outcome num with
      | reject msg =>
        dsimp only
        rw [if_neg (by rw [hnever]; exact Bool.false_ne_true)]
        apply ih (awaits + 1) cache
        rcases h with h | ⟨hnone, hmem, hok⟩
        · exact Or.inl h
        · refine Or.inr ⟨hnone, ?_, hok⟩
          rcases List.mem_cons.1 hmem with h1 | h2
          · exfalso; rw [h1] at hok; rw [hok] at ho; exact ThumbOutcome.noConfusion ho
          · exact h2
      | blank =>
        dsimp only
        rw [if_neg (by rw [hnever]; exact Bool.false_ne_true)]
        apply ih (awaits + 1) cache
        rcases h with h | ⟨hnone, hmem, hok⟩
        · exact Or.inl h
        · refine Or.inr ⟨hnone, ?_, hok⟩
          rcases List.mem_cons.1 hmem with h1 | h2
          · exfalso; rw [h1] at hok; rw [hok] at ho; exact ThumbOutcome.noConfusion ho
          · exact h2
      | ok dv =>
        dsimp only
        rw [if_neg (by rw [hnever]; exact Bool.false_ne_true)]
        apply ih (awaits + 1) (thumbInsert cache num dv)
        rcases h with h | ⟨hnone, hmem, hok⟩
        · exact Or.inl (thumbInsert_preserve cache num dv n d h)
        · by_cases hn : num = n
          · left
            subst hn
            rw [hok] at ho
            have hdd : dv = d := (ThumbOutcome.ok.inj ho).symm
            subst hdd
            exact thumbInsert_hit cache num dv hnone
          · refine Or.inr ⟨?_, ?_, hok⟩
            · rw [thumbInsert_lookup_ne cache num dv n hn]; exact hnone
            · rcases List.mem_cons.1 hmem with h1 | h2
              · exact absurd h1.symm hn
              · exact h2

theorem reject_logged (env : ThumbEnv) (hnc : env.cancelAt = none) (n : Nat) (msg : String) :
    ∀ (pages : List Nat) (awaits : Nat) (cache : List (Nat × String)),
      thumbLookup cache n = none → n ∈ pages → env.outcome n = .reject msg →
      (n, msg) ∈ (renderThumbsFrom env pages awaits cache).logged := by
  have hnever : ∀ a, thumbCancelled env a = false := by
    intro a; unfold thumbCancelled; rw [hnc]
  intro pages
  induction pages with
  | nil => intro awaits cache _ hmem _; exact absurd hmem (List.not_mem_nil n)
  | cons num rest ih =>
    intro awaits cache hnone hmem hrej
    simp only [renderThumbsFrom]
    rw [if_neg (by rw [hnever]; exact Bool.false_ne_true)]
    by_cases hcached : (thumbLookup cache num).isSome
    · rw [if_pos hcached]
      refine ih awaits cache hnone ?_ hrej
      rcases List.mem_cons.1 hmem with h1 | h2
      · exfalso; rw [h1] at hnone; rw [hnone] at hcached; simp at hcached
      · exact h2
    · rw [if_neg hcached]
      cases ho : env.outcome num with
      | reject msg2 =>
        dsimp only
        rw [if_neg (by rw [hnever]; exact Bool.false_ne_true)]
        by_cases hn : num = n
        · subst hn
          rw [hrej] at ho
          have hmm : msg2 = msg := (ThumbOutcome.reject.inj ho).symm
          subst hmm
          exact List.mem_cons_self _ _
        · apply List.mem_cons_of_mem
          refine ih (awaits + 1) cache hnone ?_ hrej
          rcases List.mem_cons.1 hmem with h1 | h2
          · exact absurd h1.symm hn
          · exact h2
      | blank =>
        dsimp only
        rw [if_neg (by rw [hnever]; exact Bool.false_ne_true)]
        refine ih (awaits + 1) cache hnone ?_ hrej
        rcases List.mem_cons.1 hmem with h1 | h2
        · exfalso; rw [h1] at hrej; rw [hrej] at ho; exact ThumbOutcome.noConfusion ho
        · exact h2
      | ok dv =>
        dsimp only
        rw [if_neg (by rw [hnever]; exact Bool.false_ne_true)]
        have hn : num ≠ n := by
          intro heq
          rw [heq] at ho
          rw [hrej] at ho
          exact ThumbOutcome.noConfusion ho
        refine ih (awaits + 1) (thumbInsert cache num dv) ?_ ?_ hrej
        · rw [thumbInsert_lookup_ne cache num dv n hn]; exact hnone
        · rcases List.mem_cons.1 hmem with h1 | h2
          · exact absurd h1.symm hn
          · exact h2

/-- C9: thumbnail generation processes pages sequentially in ascending order
(the produced trace is an ascending, duplicate-free sublist of `1..totalPages`);
a page already cached is skipped; existing cache entries are never overwritten
(so each entry is added at most once per document load); once the run is
cancelled after `k` completed renders (overview closed or document changed), at
most `k` thumbnails are ever produced; and absent cancellation a rejection on
one page is logged and skipped while every other uncached page still gets its
thumbnail. -/
theorem thumbs_generation_spec (env : ThumbEnv) (totalPages : Nat)
    (cache : List (Nat × String)) :
    ((renderAllThumbs env totalPages cache).rendered.Sublist (List.range' 1 totalPages) ∧
      (renderAllThumbs env totalPages cache).rendered.Pairwise (· < ·) ∧
      (renderAllThumbs env totalPages cache).rendered.Nodup) ∧
    (∀ n, (thumbLookup cache n).isSome = true →
        n ∉ (renderAllThumbs env totalPages cache).rendered) ∧
    (∀ n v, thumbLookup cache n = some v →
        thumbLookup (renderAllThumbs env totalPages cache).cache n = some v) ∧
    (∀ k, env.cancelAt = some k →
        (renderAllThumbs env totalPages cache).rendered.length ≤ k) ∧
    (env.cancelAt = none →
      (∀ n d, n ∈ List.range' 1 totalPages → thumbLookup cache n = none →
          env.outcome n = .ok d →
          thumbLookup (renderAllThumbs env totalPages cache).cache n = some d) ∧
      (∀ n msg, n ∈ List.range' 1 totalPages → thumbLookup cache n = none →
          env.outcome n = .reject msg →
          (n, msg) ∈ (renderAllThumbs env totalPages cache).logged)) := by
  have hsub : (renderAllThumbs env totalPages cache).rendered.Sublist
      (List.range' 1 totalPages) := rendered_sublist env _ 0 cache
  have hpair : (renderAllThumbs env totalPages cache).rendered.Pairwise (· < ·) :=
    (List.pairwise_lt_range' 1 totalPages).sublist hsub
  refine ⟨⟨hsub, hpair, hpair.imp Nat.ne_of_lt⟩, ?_, ?_, ?_, ?_⟩
  · intro n h
    exact cached_not_rendered env _ 0 cache n h
  · intro n v h
    exact thumbLookup_preserved env _ 0 cache n v h
  · intro k hk
    simpa using rendered_length_le env k hk _ 0 cache
  · intro hnone
    constructor
    · intro n d hmem hcn hok
      exact ok_page_cached env hnone n d _ 0 cache (Or.inr ⟨hcn, hmem, hok⟩)
    · intro n msg hmem hcn hrej
      exact reject_logged env hnone n msg _ 0 cache hcn hmem hrej

/-- A concrete thumbnail environment: page 2 rejects, others render, never
cancelled. -/
def thumbEnvW : ThumbEnv :=
  ⟨fun n => if n = 2 then .reject "boom" else .ok "img", none⟩

/-- C9 witness: the generation statement instantiated at a 3-page document
with page 3 already cached and page 2 failing. -/
theorem thumbs_generation_spec_witness :
    ((renderAllThumbs thumbEnvW 3 [(3, "c3")]).rendered.Sublist (List.range' 1 3) ∧
      (renderAllThumbs thumbEnvW 3 [(3, "c3")]).rendered.Pairwise (· < ·) ∧
      (renderAllThumbs thumbEnvW 3 [(3, "c3")]).rendered.Nodup) ∧
    (∀ n, (thumbLookup [(3, "c3")] n).isSome = true →
        n ∉ (renderAllThumbs thumbEnvW 3 [(3, "c3")]).rendered) ∧
    (∀ n v, thumbLookup [(3, "c3")] n = some v →
        thumbLookup (renderAllThumbs thumbEnvW 3 [(3, "c3")]).cache n = some v) ∧
    (∀ k, thumbEnvW.cancelAt = some k →
        (renderAllThumbs thumbEnvW 3 [(3, "c3")]).rendered.length ≤ k) ∧
    (thumbEnvW.cancelAt = none →
      (∀ n d, n ∈ List.range' 1 3 → thumbLookup [(3, "c3")] n = none →
          thumbEnvW.outcome n = .ok d →
          thumbLookup (renderAllThumbs thumbEnvW 3 [(3, "c3")]).cache n = some d) ∧
      (∀ n msg, n ∈ List.range' 1 3 → thumbLookup [(3, "c3")] n = none →
          thumbEnvW.outcome n = .reject msg →
          (n, msg) ∈ (renderAllThumbs thumbEnvW 3 [(3, "c3")]).logged)) :=
  thumbs_generation_spec thumbEnvW 3 [(3, "c3")]

end StudyHub
